import Mathlib

/-!
Shallow embedding of the ghappauth credential lifecycle engine
(internal/auth: http_client.go, github_app_auth.go, token_manager.go),
together with theorems settling the specification claims.

Time instants and durations are modelled as integers (nanoseconds, as in
Go `time.Time` / `time.Duration`); `time.Now()` is passed explicitly as a
parameter `now`.  Go functions returning `(T, error)` are modelled as
`Except String T` (or a structured error type where a claim depends on
the error's shape).  Network responses are supplied by an explicit
`server` oracle indexed by attempt number.
-/

namespace GHAppAuth

/-- Repository mirrors `types.Repository`. -/
structure Repository where
  id : Int
  name : String
  fullName : String
  isPrivate : Bool
deriving DecidableEq, Repr

/-- GitHubAppToken mirrors `types.GitHubAppToken` (an installation access
token); permissions are an association list standing for the Go map. -/
structure GitHubAppToken where
  token : String
  expiresAt : Int
  permissions : List (String × String)
  repositorySelection : String
  repositories : List Repository
deriving DecidableEq, Repr

/-- isTokenExpired mirrors `TokenManager.IsTokenExpired`
(token_manager.go:155-161): a nil token is always expired; otherwise the
result of `time.Now().Add(buffer).After(token.ExpiresAt)`, where Go
`t.After(u)` is the strict comparison `t > u`. -/
def isTokenExpired (now : Int) (token : Option GitHubAppToken) (buffer : Int) : Bool :=
  match token with
  | none => true
  | some t => decide (now + buffer > t.expiresAt)

/-- shouldRetry mirrors `shouldRetry` (http_client.go:149-151). -/
def shouldRetry (statusCode : Int) : Bool :=
  decide (statusCode ≥ 500) || decide (statusCode = 429) || decide (statusCode = 408)

/-- HTTPClientConfig mirrors `HTTPClientConfig` (http_client.go:22-28);
durations are nanoseconds, `BackoffMultiplier` is a rational (2.0 = 2). -/
structure HTTPClientConfig where
  timeout : Int
  maxRetries : Nat
  retryDelay : Int
  backoffMultiplier : Rat
  userAgent : String
deriving DecidableEq, Repr

/-- DefaultHTTPClientConfig mirrors `DefaultHTTPClientConfig`
(http_client.go:31-39). -/
def DefaultHTTPClientConfig : HTTPClientConfig :=
  { timeout := 30 * 1000000000
    maxRetries := 3
    retryDelay := 1000000000
    backoffMultiplier := 2
    userAgent := "ghappauth/1.0" }

/-- AttemptOutcome describes what one execution of the closure passed to
`retry.Do` observes on a given attempt: `http.NewRequestWithContext`
fails, `c.client.Do` fails, or a response with a status code and a body
arrives.  The body type is a parameter `β` (raw response bytes,
abstracted). -/
inductive AttemptOutcome (β : Type) where
  | createErr : AttemptOutcome β
  | netErr : AttemptOutcome β
  | response (status : Int) (body : β) : AttemptOutcome β

/-- HTTPResponse abstracts the `*http.Response` data the source reads. -/
structure HTTPResponse (β : Type) where
  status : Int
  body : β
deriving DecidableEq, Repr

/-- ReqError is the error produced by one attempt inside `retry.Do`: a
wrapped request-construction error, a wrapped transport error, or a
`*RetryableError` carrying the status code (http_client.go:65-72). -/
inductive ReqError where
  | createFailed
  | transportFailed
  | retryable (status : Int)
deriving DecidableEq, Repr

/-- retryIf mirrors the `retry.RetryIf` predicate (http_client.go:111-114):
only a `*RetryableError` triggers a retry. -/
def retryIf : ReqError → Bool
  | .retryable _ => true
  | _ => false

/-- attemptOnce models one execution of the closure passed to `retry.Do`
(http_client.go:79-106): build the request, send it; a response whose
status `shouldRetry` accepts is closed and turned into a
`*RetryableError`, any other response becomes the kept result. -/
def attemptOnce (server : Nat → AttemptOutcome β) (i : Nat) :
    Except ReqError (HTTPResponse β) :=
  match server i with
  | .createErr => .error .createFailed
  | .netErr => .error .transportFailed
  | .response st b => if shouldRetry st then .error (.retryable st) else .ok ⟨st, b⟩

/-- retryLoop models `retry.Do` with `Attempts(n)`, `RetryIf retryIf` and
`LastErrorOnly(true)`: attempts run until success, a non-retryable error,
or the attempt budget is exhausted; the result is returned together with
the number of attempts actually made.  `made` is the index of the next
attempt and `remaining` the attempts still allowed; every configuration
in the source uses a positive attempt count, so the `remaining = 0` base
case is unreachable from `doRequest`.  Backoff sleeps are real time and
not modelled. -/
def retryLoop (server : Nat → AttemptOutcome β) :
    Nat → Nat → Except ReqError (HTTPResponse β) × Nat
  | made, 0 => (.error .transportFailed, made)
  | made, remaining + 1 =>
    match attemptOnce server made with
    | .ok r => (.ok r, made + 1)
    | .error e =>
      if 0 < remaining && retryIf e then
        retryLoop server (made + 1) remaining
      else
        (.error e, made + 1)

/-- WrappedFailure models the error built at http_client.go:118-120,
`fmt.Errorf("request failed after %d attempts: %w", c.config.MaxRetries, err)`:
the attempt count printed into the message is the configured MaxRetries,
and the last attempt's error is wrapped inside. -/
structure WrappedFailure where
  attemptsReported : Nat
  cause : ReqError
deriving DecidableEq, Repr

/-- doRequest mirrors `HTTPClient.doRequest` (http_client.go:75-123), with
the number of attempts actually made returned alongside the result. -/
def doRequest (maxRetries : Nat) (server : Nat → AttemptOutcome β) :
    Except WrappedFailure (HTTPResponse β) × Nat :=
  match retryLoop server 0 maxRetries with
  | (.ok r, n) => (.ok r, n)
  | (.error e, n) => (.error ⟨maxRetries, e⟩, n)

/-- DoRequestError distinguishes the failure shapes of
`HTTPClient.DoRequest` (http_client.go:126-146). -/
inductive DoRequestError where
  | transport (w : WrappedFailure)
  | apiError (message : String) (status : Int)
  | apiErrorDecodeFailed (status : Int)
  | decodeFailed
deriving DecidableEq, Repr

/-- DoRequest mirrors `HTTPClient.DoRequest` (http_client.go:126-146).
`decodeResult` models `json.NewDecoder(resp.Body).Decode(result)` into
the caller's result shape `ρ` and `decodeApiErr` models decoding the
`types.GitHubAPIError` envelope, whose message field is what the error
string carries; `none` means the JSON decode fails. -/
def DoRequest (maxRetries : Nat) (server : Nat → AttemptOutcome β) (expectedStatus : Int)
    (decodeResult : β → Option ρ) (decodeApiErr : β → Option String) :
    Except DoRequestError ρ × Nat :=
  match doRequest maxRetries server with
  | (.error w, n) => (.error (.transport w), n)
  | (.ok resp, n) =>
    if expectedStatus ≠ 0 ∧ resp.status ≠ expectedStatus then
      match decodeApiErr resp.body with
      | none => (.error (.apiErrorDecodeFailed resp.status), n)
      | some msg => (.error (.apiError msg resp.status), n)
    else
      match decodeResult resp.body with
      | none => (.error .decodeFailed, n)
      | some r => (.ok r, n)

/-- RSAKey abstracts `*rsa.PrivateKey` as an opaque handle; the claims
depend only on whether parsing produced a key, never on key algebra. -/
structure RSAKey where
  keyId : Nat
deriving DecidableEq, Repr

/-- PKCS8Parsed is the content of a successful
`x509.ParsePKCS8PrivateKey`: an RSA key or a key of another algorithm
(the type switch at github_app_auth.go:90-93 distinguishes exactly
these two cases). -/
inductive PKCS8Parsed where
  | rsa (k : RSAKey)
  | otherAlgorithm
deriving DecidableEq, Repr

/-- KeyBytes characterises a PEM block's byte payload by what each of the
two x509 parsers the source can run on it would return, with `none`
meaning that parser errors. -/
structure KeyBytes where
  parsePKCS1 : Option RSAKey
  parsePKCS8 : Option PKCS8Parsed
deriving DecidableEq, Repr

/-- PEMBlock is a successfully decoded PEM block: its type string and its
payload. -/
structure PEMBlock where
  btype : String
  bytes : KeyBytes
deriving DecidableEq, Repr

/-- parsePrivateKey mirrors `parsePrivateKey` (github_app_auth.go:72-103);
`pemDecode` abstracts `pem.Decode`, with `none` meaning no block found. -/
def parsePrivateKey (pemDecode : String → Option PEMBlock) (privateKeyPEM : String) :
    Except String RSAKey :=
  match pemDecode privateKeyPEM with
  | none => .error "failed to decode PEM block"
  | some block =>
    if block.btype = "RSA PRIVATE KEY" then
      match block.bytes.parsePKCS1 with
      | some k => .ok k
      | none => .error "failed to parse RSA private key"
    else if block.btype = "PRIVATE KEY" then
      match block.bytes.parsePKCS8 with
      | none => .error "failed to parse PKCS8 private key"
      | some (.rsa k) => .ok k
      | some .otherAlgorithm => .error "key is not an RSA private key"
    else
      .error ("unsupported private key type: " ++ block.btype)

/-- goDigitsVal folds decimal digit characters into a number. -/
def goDigitsVal (ds : List Char) : Nat :=
  ds.foldl (fun acc d => acc * 10 + (d.toNat - 48)) 0

/-- goAtoi mirrors `strconv.Atoi`: an optional single leading sign followed
by one or more decimal digits; anything else errors.  The machine-int
range bound of `strconv.Atoi` is not modelled; no claim depends on
overflow. -/
def goAtoi (s : String) : Option Int :=
  match s.toList with
  | [] => none
  | c :: rest =>
    let signed : Bool × List Char :=
      if c = '-' then (true, rest)
      else if c = '+' then (false, rest)
      else (false, c :: rest)
    match signed with
    | (neg, digits) =>
      if digits.isEmpty then none
      else if digits.all Char.isDigit then
        some (if neg then -(goDigitsVal digits : Int) else (goDigitsVal digits : Int))
      else none

/-- GitHubAppConfig mirrors `types.GitHubAppConfig`. -/
structure GitHubAppConfig where
  appID : String
  privateKey : String
  installationID : String
  baseURL : String
deriving DecidableEq, Repr

/-- GitHubAppAuth mirrors the construction-time fields of `GitHubAppAuth`
(the embedded HTTP client only carries the default configuration). -/
structure GitHubAppAuth where
  config : GitHubAppConfig
  privateKey : RSAKey
  baseURL : String
deriving DecidableEq, Repr

/-- NewGitHubAppAuth mirrors `NewGitHubAppAuth` (github_app_auth.go:26-69);
a nil `*GitHubAppConfig` argument is modelled as `none`. -/
def NewGitHubAppAuth (pemDecode : String → Option PEMBlock)
    (config : Option GitHubAppConfig) : Except String GitHubAppAuth :=
  match config with
  | none => .error "config cannot be nil"
  | some cfg =>
    if cfg.appID = "" then .error "app_id is required"
    else if cfg.privateKey = "" then .error "private_key is required"
    else if cfg.installationID = "" then .error "installation_id is required"
    else
      match goAtoi cfg.appID with
      | none => .error "invalid app_id"
      | some _ =>
        match goAtoi cfg.installationID with
        | none => .error "invalid installation_id"
        | some _ =>
          match parsePrivateKey pemDecode cfg.privateKey with
          | .error e => .error ("failed to parse private key: " ++ e)
          | .ok key =>
            .ok { config := cfg
                  privateKey := key
                  baseURL := if cfg.baseURL = "" then "https://api.github.com" else cfg.baseURL }

/-- exceptIsOk reports whether an `Except` carries a success value. -/
def exceptIsOk : Except ε α → Bool
  | .ok _ => true
  | .error _ => false

/-- GoCachedToken mirrors the data fields of `cachedToken`
(token_manager.go:20-26); the `renewMutex` appears only in the concurrent
model below. -/
structure GoCachedToken where
  token : Option GitHubAppToken
  createdAt : Int
  lastUsed : Int
  renewing : Bool
deriving DecidableEq, Repr

/-- renewToken mirrors the body of `TokenManager.renewToken`
(token_manager.go:61-82) as executed under the entry's `renewMutex`:
`exchange` is the value `tm.auth.GetInstallationToken()` would return,
and the final `Bool` records whether that call was actually made. -/
def renewToken (now buffer : Int) (cached : GoCachedToken)
    (exchange : Except String GitHubAppToken) :
    GoCachedToken × Except String (Option GitHubAppToken) × Bool :=
  if isTokenExpired now cached.token buffer = false then
    (cached, .ok cached.token, false)
  else
    match exchange with
    | .error e =>
      ({ cached with renewing := false }, .error ("failed to renew token: " ++ e), true)
    | .ok newToken =>
      ({ cached with token := some newToken, createdAt := now, renewing := false },
       .ok (some newToken), true)

/-- Entry is a cache entry of the concurrent model: the data fields of
`cachedToken` plus its `renewMutex`, modelled as the index of the
goroutine currently holding it (`none` = unlocked).  Entries reached by
the source's code paths always hold a non-nil token, so `token` is not
optional here. -/
structure Entry where
  token : GitHubAppToken
  createdAt : Int
  lastUsed : Int
  renewing : Bool
  lockHolder : Option Nat
deriving DecidableEq, Repr

/-- exceptToSum views an `Except` as a sum, giving decidable equality. -/
def exceptToSum : Except ε α → ε ⊕ α
  | .error e => .inl e
  | .ok a => .inr a

instance [DecidableEq ε] [DecidableEq α] : DecidableEq (Except ε α) := fun x y =>
  decidable_of_iff (exceptToSum x = exceptToSum y)
    (by cases x <;> cases y <;> simp [exceptToSum])

/-- PC is the program counter of one goroutine running one `GetToken`
call (token_manager.go:42-101).  `renewCall` and `createCall` are the
states in which the goroutine's exchange request to
`tm.auth.GetInstallationToken()` is in flight. -/
inductive PC where
  | start
  | lockWait
  | locked
  | renewCall
  | createCall
  | storeNew (tok : GitHubAppToken)
  | done (res : Except String (Option GitHubAppToken))
deriving DecidableEq, Repr

/-- Thread is one goroutine: its program counter and whether it has
completed an exchange call during this `GetToken` invocation. -/
structure Thread where
  pc : PC
  didExch : Bool
deriving DecidableEq, Repr

/-- SysState is the shared state: the cache slot for the configured
installation identity (the manager serves a single identity), the
goroutines, and the total number of completed exchange calls. -/
structure SysState where
  cache : Option Entry
  threads : List Thread
  exchCount : Nat
deriving DecidableEq, Repr

/-- stepThread is the small-step interleaving semantics of `GetToken`:
thread `i` performs its next atomic step, if enabled.  `exch k` is the
result of the `k`-th exchange call `tm.auth.GetInstallationToken()`.
Steps: `start` = cache lookup under the read lock plus the `lastUsed`
update and buffer-adjusted expiry check (token_manager.go:43-55);
`lockWait` = blocking acquisition of the entry's `renewMutex`
(token_manager.go:62); `locked` = the re-check of expiry under that lock
and, when still expired, setting the `renewing` flag and issuing the
exchange (token_manager.go:65-71); `renewCall` = completion of the
in-flight renewal exchange, storing or error-propagating and releasing
the lock (token_manager.go:72-81); `createCall` = completion of the
in-flight first-time exchange (token_manager.go:86-89, note: no lock is
held); `storeNew` = inserting the fresh entry under the write lock and
returning (token_manager.go:92-100). -/
def stepThread (now buffer : Int) (exch : Nat → Except String GitHubAppToken)
    (s : SysState) (i : Nat) : Option SysState :=
  match s.threads[i]? with
  | none => none
  | some th =>
    match th.pc with
    | .start =>
      match s.cache with
      | none => some { s with threads := s.threads.set i { th with pc := .createCall } }
      | some e =>
        let e2 := { e with lastUsed := now }
        if isTokenExpired now (some e2.token) buffer = false then
          some { s with cache := some e2
                        threads := s.threads.set i { th with pc := .done (.ok (some e2.token)) } }
        else
          some { s with cache := some e2
                        threads := s.threads.set i { th with pc := .lockWait } }
    | .lockWait =>
      match s.cache with
      | none => none
      | some e =>
        match e.lockHolder with
        | some _ => none
        | none =>
          some { s with cache := some { e with lockHolder := some i }
                        threads := s.threads.set i { th with pc := .locked } }
    | .locked =>
      match s.cache with
      | none => none
      | some e =>
        if isTokenExpired now (some e.token) buffer = false then
          some { s with cache := some { e with lockHolder := none }
                        threads := s.threads.set i { th with pc := .done (.ok (some e.token)) } }
        else
          some { s with cache := some { e with renewing := true }
                        threads := s.threads.set i { th with pc := .renewCall } }
    | .renewCall =>
      match s.cache with
      | none => none
      | some e =>
        match exch s.exchCount with
        | .error msg =>
          some { s with cache := some { e with renewing := false, lockHolder := none }
                        threads := s.threads.set i
                          { pc := .done (.error ("failed to renew token: " ++ msg)), didExch := true }
                        exchCount := s.exchCount + 1 }
        | .ok tok =>
          some { s with cache := some { e with token := tok, createdAt := now,
                                               renewing := false, lockHolder := none }
                        threads := s.threads.set i
                          { pc := .done (.ok (some tok)), didExch := true }
                        exchCount := s.exchCount + 1 }
    | .createCall =>
      match exch s.exchCount with
      | .error msg =>
        some { s with threads := s.threads.set i
                        { pc := .done (.error ("failed to create new token: " ++ msg)), didExch := true }
                      exchCount := s.exchCount + 1 }
      | .ok tok =>
        some { s with threads := s.threads.set i { pc := .storeNew tok, didExch := true }
                      exchCount := s.exchCount + 1 }
    | .storeNew tok =>
      some { s with cache := some { token := tok, createdAt := now, lastUsed := now,
                                    renewing := false, lockHolder := none }
                    threads := s.threads.set i { th with pc := .done (.ok (some tok)) } }
    | .done _ => none

/-- run executes a schedule: at each step the named thread moves; the run
fails if a named thread is blocked or finished. -/
def run (now buffer : Int) (exch : Nat → Except String GitHubAppToken)
    (s : SysState) : List Nat → Option SysState
  | [] => some s
  | i :: rest =>
    match stepThread now buffer exch s i with
    | none => none
    | some s2 => run now buffer exch s2 rest

/-- isRenewPC recognises a thread whose renewal exchange is in flight. -/
def isRenewPC : PC → Bool
  | .renewCall => true
  | _ => false

/-- isLockedPC recognises the states in which a thread holds the entry's
`renewMutex`. -/
def isLockedPC : PC → Bool
  | .locked => true
  | .renewCall => true
  | _ => false

/-- isCreatePC recognises the states of the first-time-creation path. -/
def isCreatePC : PC → Bool
  | .createCall => true
  | .storeNew _ => true
  | _ => false

/-- isStorePC recognises a thread about to insert a freshly exchanged
token. -/
def isStorePC : PC → Bool
  | .storeNew _ => true
  | _ => false

/-- isDonePC recognises a finished thread. -/
def isDonePC (t : Thread) : Bool :=
  match t.pc with
  | .done _ => true
  | _ => false

/-- preExchPC recognises the states a thread can be in before it has
completed any exchange call. -/
def preExchPC : PC → Bool
  | .storeNew _ => false
  | .done _ => false
  | _ => true

/-- initialRenewState: a cache entry for the identity already exists (its
mutex free, as every entry the source builds starts), and `n` goroutines
are about to call `GetToken`. -/
def initialRenewState (tok : GitHubAppToken) (createdAt lastUsed : Int)
    (renewing : Bool) (n : Nat) : SysState :=
  { cache := some { token := tok, createdAt := createdAt, lastUsed := lastUsed,
                    renewing := renewing, lockHolder := none }
    threads := List.replicate n { pc := .start, didExch := false }
    exchCount := 0 }

/-- initialEmptyState: no cached entry exists and `n` goroutines are about
to call `GetToken`. -/
def initialEmptyState (n : Nat) : SysState :=
  { cache := none
    threads := List.replicate n { pc := .start, didExch := false }
    exchCount := 0 }

/-- mkToken builds a token whose only distinguishing data are its value
and expiry, as used by concrete test inputs. -/
def mkToken (v : String) (expiresAt : Int) : GitHubAppToken :=
  { token := v, expiresAt := expiresAt, permissions := [],
    repositorySelection := "all", repositories := [] }

/-- C3 counterexample: the claim says `IsTokenExpired` returns true when
`now + b` equals `expiresAt` exactly, but the source compares with Go
`time.Time.After`, which is strict, so at `now = 0`, `b = 5`,
`expiresAt = 5` the function returns false although `now + b ≥ expiresAt`. -/
theorem C3_counterexample :
    isTokenExpired 0 (some (mkToken "t" 5)) 5 = false ∧ (0 : Int) + 5 ≥ 5 := by
  exact ⟨rfl, by norm_num⟩

/-- C3 (amended): for every buffer `b`, `IsTokenExpired(nil, b)` is true;
and for every non-nil token and buffer, the result is true iff
`now + b` is strictly greater than `expiresAt` — at exact equality the
token is not yet considered expired. -/
theorem C3_expiry_semantics (now buffer : Int) (t : GitHubAppToken) :
    isTokenExpired now none buffer = true ∧
    (isTokenExpired now (some t) buffer = true ↔ now + buffer > t.expiresAt) := by
  refine ⟨rfl, ?_⟩
  simp [isTokenExpired]

/-- C6: a status code is classified retryable iff it is ≥ 500 or equals
429 or 408; and against a server answering every attempt with status `c`,
the executor under the default attempt ceiling makes 3 attempts when `c`
is retryable and exactly 1 attempt (surfacing the response immediately)
otherwise. -/
theorem C6_retry_classification (c : Int) :
    (shouldRetry c = true ↔ (c ≥ 500 ∨ c = 429 ∨ c = 408)) ∧
    (doRequest DefaultHTTPClientConfig.maxRetries
        (fun _ => AttemptOutcome.response c ())).2
      = if shouldRetry c then 3 else 1 := by
  constructor
  · simp [shouldRetry, or_assoc]
  · by_cases h : shouldRetry c = true
    · simp only [h, if_true]
      show (doRequest 3 _).2 = 3
      simp [doRequest, retryLoop, attemptOnce, h, retryIf]
    · rw [if_neg (by simpa using h)]
      show (doRequest 3 _).2 = 1
      simp [doRequest, retryLoop, attemptOnce, h]

/-- srv500twice200 answers 500 on the first two attempts and 200 with a
decodable payload on the third. -/
def srv500twice200 : Nat → AttemptOutcome String := fun i =>
  if i < 2 then .response 500 "server error" else .response 200 "payload"

/-- srv400 answers 400 with a decodable error envelope on every attempt. -/
def srv400 : Nat → AttemptOutcome String := fun _ => .response 400 "bad request"

/-- srv500always answers 500 on every attempt. -/
def srv500always : Nat → AttemptOutcome String := fun _ => .response 500 "server error"

/-- decodeId models a JSON decode that always succeeds, returning the raw
body. -/
def decodeId : String → Option String := fun b => some b

/-- C7: under the default configuration (attempt ceiling 3), a server
returning 500, 500, then 200 yields exactly 3 attempts and a successful
decoded result; a server returning 400 yields exactly 1 attempt and an
immediate API failure; a server returning a retryable status on every
attempt yields exactly 3 attempts and a failure wrapped with the
attempt-count context. -/
theorem C7_retry_attempt_scenarios :
    DoRequest DefaultHTTPClientConfig.maxRetries srv500twice200 200 decodeId decodeId
      = (.ok "payload", 3) ∧
    DoRequest DefaultHTTPClientConfig.maxRetries srv400 200 decodeId decodeId
      = (.error (.apiError "bad request" 400), 1) ∧
    DoRequest DefaultHTTPClientConfig.maxRetries srv500always 200 decodeId decodeId
      = (.error (.transport ⟨DefaultHTTPClientConfig.maxRetries, .retryable 500⟩), 3) := by
  exact ⟨rfl, rfl, rfl⟩

/-- C9: when the caller leaves `ExpectedStatus` at 0, no status validation
happens: any response whose status is not retryable — 404 included — has
its body decoded into the caller's result shape, and `DoRequest` returns
that value without error after a single attempt whenever the decode
succeeds. -/
theorem C9_zero_expected_status_skips_validation {ρ : Type} (m : Nat) (status : Int)
    (body : String) (res : ρ) (decR : String → Option ρ) (decE : String → Option String)
    (hm : 1 ≤ m) (hnr : shouldRetry status = false) (hdec : decR body = some res) :
    DoRequest m (fun _ => AttemptOutcome.response status body) 0 decR decE
      = (.ok res, 1) := by
  obtain ⟨k, rfl⟩ : ∃ k, m = k + 1 := ⟨m - 1, (Nat.succ_pred_eq_of_pos hm).symm⟩
  simp [DoRequest, doRequest, retryLoop, attemptOnce, hnr, hdec]

/-- C9 witness: a 404 response with a decodable body and no expected
status declared decodes successfully after one attempt. -/
theorem C9_witness :
    DoRequest 3 (fun _ => AttemptOutcome.response 404 "notfound") 0
      (fun b => some b) (fun _ => none) = (.ok "notfound", 1) :=
  C9_zero_expected_status_skips_validation 3 404 "notfound" "notfound"
    (fun b => some b) (fun _ => none) (by norm_num) (by decide) rfl

/-- C10: every failure leaving `doRequest` is wrapped with the message
`request failed after N attempts` where `N` is the configured MaxRetries,
independent of how many attempts were actually made. -/
theorem C10_failure_wrap_reports_max_retries (m : Nat)
    (server : Nat → AttemptOutcome String) (w : WrappedFailure) (n : Nat)
    (h : doRequest m server = (Except.error w, n)) :
    w.attemptsReported = m := by
  unfold doRequest at h
  rcases hrl : retryLoop server 0 m with ⟨r, k⟩
  rw [hrl] at h
  cases r with
  | ok v => simp at h
  | error e =>
    simp only [Prod.mk.injEq] at h
    obtain ⟨h1, _⟩ := h
    obtain rfl := (Except.error.injEq _ _).mp h1.symm
    rfl

/-- srvNetErr fails with a transport error on every attempt. -/
def srvNetErr : Nat → AttemptOutcome String := fun _ => .netErr

/-- C10 witness: a network-transport failure is not retried — a single
attempt is made — yet the wrapping error reports the configured 3
attempts. -/
theorem C10_witness :
    (doRequest 3 srvNetErr).2 = 1 ∧
    (⟨3, ReqError.transportFailed⟩ : WrappedFailure).attemptsReported = 3 :=
  ⟨rfl, C10_failure_wrap_reports_max_retries 3 srvNetErr ⟨3, .transportFailed⟩ 1 rfl⟩

/-- C4: when the exchange made during renewal fails, `renewToken` clears
the `renewing` flag, returns the exchange error wrapped with renewal
context, and leaves the cached token and its `createdAt` untouched. -/
theorem C4_renewal_failure_preserves_token (now buffer : Int) (cached : GoCachedToken)
    (e : String) (h : isTokenExpired now cached.token buffer = true) :
    renewToken now buffer cached (.error e)
      = ({ cached with renewing := false },
         .error ("failed to renew token: " ++ e), true) := by
  simp [renewToken, h]

/-- cwExpired is a cache entry holding a token that expired at instant 0. -/
def cwExpired : GoCachedToken :=
  { token := some (mkToken "old" 0), createdAt := 0, lastUsed := 0, renewing := false }

/-- C4 witness: a failed renewal at `now = 1000` leaves the expired token
in place and surfaces the wrapped error. -/
theorem C4_witness :
    renewToken 1000 0 cwExpired (.error "boom")
      = ({ cwExpired with renewing := false },
         .error ("failed to renew token: " ++ "boom"), true) :=
  C4_renewal_failure_preserves_token 1000 0 cwExpired "boom" (by decide)

/-- C5: after the entry's renewal lock is acquired, expiry is re-checked;
when the cached token is no longer expired against the renew buffer, the
cached token is returned and the exchange is never invoked. -/
theorem C5_recheck_returns_without_exchange (now buffer : Int) (cached : GoCachedToken)
    (exchange : Except String GitHubAppToken)
    (h : isTokenExpired now cached.token buffer = false) :
    renewToken now buffer cached exchange = (cached, .ok cached.token, false) := by
  simp [renewToken, h]

/-- cwFresh is a cache entry holding a token valid far into the future. -/
def cwFresh : GoCachedToken :=
  { token := some (mkToken "fresh" 1000000), createdAt := 0, lastUsed := 0, renewing := false }

/-- C5 witness: with a token that a concurrent caller just renewed, the
re-check under the lock returns it and performs zero exchange calls. -/
theorem C5_witness :
    renewToken 0 300 cwFresh (.error "unused") = (cwFresh, .ok cwFresh.token, false) :=
  C5_recheck_returns_without_exchange 0 300 cwFresh (.error "unused") (by decide)

/-- validPKCS8Block is a PEM block of type PRIVATE KEY whose payload
parses under PKCS#8 into an RSA key. -/
def validPKCS8Block : PEMBlock :=
  { btype := "PRIVATE KEY", bytes := { parsePKCS1 := none, parsePKCS8 := some (.rsa ⟨0⟩) } }

/-- pemDecodeTest decodes exactly one key string into a valid PKCS#8 RSA
block. -/
def pemDecodeTest : String → Option PEMBlock := fun s =>
  if s = "k8" then some validPKCS8Block else none

/-- cfgNegativeAppID is a configuration whose AppID is the negative
integer string `-5` with an otherwise valid key and installation id. -/
def cfgNegativeAppID : GitHubAppConfig :=
  { appID := "-5", privateKey := "k8", installationID := "67890", baseURL := "" }

/-- C8 counterexample: the claim says construction fails whenever an ID
does not parse as a positive integer, but the source only runs
`strconv.Atoi`, so the negative AppID `-5` is accepted and construction
succeeds. -/
theorem C8_counterexample :
    exceptIsOk (NewGitHubAppAuth pemDecodeTest (some cfgNegativeAppID)) = true ∧
    goAtoi "-5" = some (-5) ∧ ¬ (0 < (-5 : Int)) := by
  refine ⟨rfl, rfl, by norm_num⟩

/-- C8 (amended): construction succeeds exactly when the config is
non-nil, all three fields are non-empty, both IDs parse under
`strconv.Atoi` as integers (any integer — zero and negatives included,
positivity is not checked), and the key material parses: the PEM decodes
into a block that is either PKCS#1 `RSA PRIVATE KEY` or PKCS#8
`PRIVATE KEY` holding an RSA key; a nil config always fails. -/
theorem C8_construction_characterisation (pd : String → Option PEMBlock)
    (cfg : GitHubAppConfig) :
    exceptIsOk (NewGitHubAppAuth pd none) = false ∧
    (exceptIsOk (NewGitHubAppAuth pd (some cfg)) = true ↔
      (cfg.appID ≠ "" ∧ cfg.privateKey ≠ "" ∧ cfg.installationID ≠ "" ∧
       (goAtoi cfg.appID).isSome = true ∧ (goAtoi cfg.installationID).isSome = true ∧
       exceptIsOk (parsePrivateKey pd cfg.privateKey) = true)) := by
  refine ⟨rfl, ?_⟩
  by_cases h1 : cfg.appID = ""
  · simp [NewGitHubAppAuth, exceptIsOk, h1]
  · by_cases h2 : cfg.privateKey = ""
    · simp [NewGitHubAppAuth, exceptIsOk, h1, h2]
    · by_cases h3 : cfg.installationID = ""
      · simp [NewGitHubAppAuth, exceptIsOk, h1, h2, h3]
      · cases ha : goAtoi cfg.appID with
        | none => simp [NewGitHubAppAuth, exceptIsOk, h1, h2, h3, ha]
        | some va =>
          cases hi : goAtoi cfg.installationID with
          | none => simp [NewGitHubAppAuth, exceptIsOk, h1, h2, h3, ha, hi]
          | some vi =>
            cases hk : parsePrivateKey pd cfg.privateKey with
            | error e => simp [NewGitHubAppAuth, exceptIsOk, h1, h2, h3, ha, hi, hk]
            | ok k => simp [NewGitHubAppAuth, exceptIsOk, h1, h2, h3, ha, hi, hk]

/-- getTwoOfTwoLeCountP extracts two distinct positions from a count of at
least two. -/
theorem getTwoOfTwoLeCountP (p : α → Bool) (l : List α) (h : 2 ≤ l.countP p) :
    ∃ (i j : Nat) (a b : α), i ≠ j ∧ l[i]? = some a ∧ l[j]? = some b ∧ p a = true ∧ p b = true := by
  induction l with
  | nil => rw [List.countP_nil] at h; omega
  | cons x xs ih =>
    rw [List.countP_cons] at h
    by_cases hx : p x = true
    · have h1 : 0 < xs.countP p := by
        rw [if_pos hx] at h
        omega
      obtain ⟨a, ha, hpa⟩ := List.countP_pos_iff.mp h1
      obtain ⟨n, hn⟩ := List.getElem?_of_mem ha
      exact ⟨0, n + 1, x, a, by omega, by simp, by simpa using hn, hx, hpa⟩
    · have h2 : 2 ≤ xs.countP p := by
        rw [if_neg hx] at h
        omega
      obtain ⟨i, j, a, b, hij, hi, hj, hpa, hpb⟩ := ih h2
      exact ⟨i + 1, j + 1, a, b, by omega, by simpa using hi, by simpa using hj, hpa, hpb⟩

/-- getElemLt: a successful index lookup is in bounds. -/
theorem getElemLt {l : List α} {n : Nat} {a : α} (h : l[n]? = some a) : n < l.length := by
  obtain ⟨hlt, _⟩ := List.getElem?_eq_some_iff.mp h
  exact hlt

/-- getElemSetCases splits a lookup in a list updated at index `i` into the
updated position and the untouched ones. -/
theorem getElemSetCases {threads : List Thread} {i j : Nat} {updT t : Thread}
    (hlt : i < threads.length)
    (hj : (threads.set i updT)[j]? = some t) :
    (j = i ∧ t = updT) ∨ (j ≠ i ∧ threads[j]? = some t) := by
  by_cases hij : j = i
  · subst hij
    rw [List.getElem?_set_eq_of_lt _ hlt] at hj
    injection hj with h
    exact Or.inl ⟨rfl, h.symm⟩
  · refine Or.inr ⟨hij, ?_⟩
    rw [List.getElem?_set_ne (fun hh => hij hh.symm)] at hj
    exact hj

/-- lockedOfRenew: an in-flight renewal exchange is inside the locked
section. -/
theorem lockedOfRenew {pc : PC} (h : isRenewPC pc = true) : isLockedPC pc = true := by
  cases pc <;> simp_all [isRenewPC, isLockedPC]

/-- InvC1 is the locking invariant of the renewal path: the cache slot for
the identity stays populated, every thread inside the double-checked
section (`locked` or `renewCall`) is recorded as the holder of the
entry's `renewMutex`, and no thread is on the first-time-creation path. -/
def InvC1 (s : SysState) : Prop :=
  s.cache.isSome = true ∧
  (∀ (i : Nat) (t : Thread), s.threads[i]? = some t → isLockedPC t.pc = true →
    ∃ e, s.cache = some e ∧ e.lockHolder = some i) ∧
  (∀ (i : Nat) (t : Thread), s.threads[i]? = some t → isCreatePC t.pc = false)

/-- invC1Step: every atomic step of every thread preserves `InvC1`. -/
theorem invC1Step (now buffer : Int) (exch : Nat → Except String GitHubAppToken)
    (s s' : SysState) (i : Nat) (hinv : InvC1 s)
    (hstep : stepThread now buffer exch s i = some s') : InvC1 s' := by
  obtain ⟨hsome, hlock, hnc⟩ := hinv
  cases hget : s.threads[i]? with
  | none => simp [stepThread, hget] at hstep
  | some th =>
    obtain ⟨pc, dex⟩ := th
    have hlt : i < s.threads.length := getElemLt hget
    cases pc with
    | start =>
      cases hc : s.cache with
      | none => rw [hc] at hsome; exact absurd hsome (by simp)
      | some e =>
        simp only [stepThread, hget, hc] at hstep
        by_cases hexp : isTokenExpired now (some e.token) buffer = false
        · rw [if_pos hexp] at hstep
          injection hstep with hs
          subst hs
          refine ⟨rfl, ?_, ?_⟩
          · intro j t hj hl
            rcases getElemSetCases hlt hj with ⟨rfl, rfl⟩ | ⟨hij, hj2⟩
            · exact absurd hl (by simp [isLockedPC])
            · obtain ⟨e2, hc2, hk2⟩ := hlock j t hj2 hl
              rw [hc] at hc2
              injection hc2 with he
              subst he
              exact ⟨_, rfl, hk2⟩
          · intro j t hj
            rcases getElemSetCases hlt hj with ⟨rfl, rfl⟩ | ⟨hij, hj2⟩
            · rfl
            · exact hnc j t hj2
        · rw [if_neg hexp] at hstep
          injection hstep with hs
          subst hs
          refine ⟨rfl, ?_, ?_⟩
          · intro j t hj hl
            rcases getElemSetCases hlt hj with ⟨rfl, rfl⟩ | ⟨hij, hj2⟩
            · exact absurd hl (by simp [isLockedPC])
            · obtain ⟨e2, hc2, hk2⟩ := hlock j t hj2 hl
              rw [hc] at hc2
              injection hc2 with he
              subst he
              exact ⟨_, rfl, hk2⟩
          · intro j t hj
            rcases getElemSetCases hlt hj with ⟨rfl, rfl⟩ | ⟨hij, hj2⟩
            · rfl
            · exact hnc j t hj2
    | lockWait =>
      cases hc : s.cache with
      | none => rw [hc] at hsome; exact absurd hsome (by simp)
      | some e =>
        cases hk : e.lockHolder with
        | some holder => simp [stepThread, hget, hc, hk] at hstep
        | none =>
          simp only [stepThread, hget, hc, hk] at hstep
          injection hstep with hs
          subst hs
          refine ⟨rfl, ?_, ?_⟩
          · intro j t hj hl
            rcases getElemSetCases hlt hj with ⟨rfl, rfl⟩ | ⟨hij, hj2⟩
            · exact ⟨_, rfl, rfl⟩
            · obtain ⟨e2, hc2, hk2⟩ := hlock j t hj2 hl
              rw [hc] at hc2
              injection hc2 with he
              subst he
              rw [hk] at hk2
              exact absurd hk2 (by simp)
          · intro j t hj
            rcases getElemSetCases hlt hj with ⟨rfl, rfl⟩ | ⟨hij, hj2⟩
            · rfl
            · exact hnc j t hj2
    | locked =>
      cases hc : s.cache with
      | none => rw [hc] at hsome; exact absurd hsome (by simp)
      | some e =>
        have hme : e.lockHolder = some i := by
          obtain ⟨e2, hc2, hk2⟩ := hlock i ⟨PC.locked, dex⟩ hget rfl
          rw [hc] at hc2
          injection hc2 with he
          subst he
          exact hk2
        simp only [stepThread, hget, hc] at hstep
        by_cases hexp : isTokenExpired now (some e.token) buffer = false
        · rw [if_pos hexp] at hstep
          injection hstep with hs
          subst hs
          refine ⟨rfl, ?_, ?_⟩
          · intro j t hj hl
            rcases getElemSetCases hlt hj with ⟨rfl, rfl⟩ | ⟨hij, hj2⟩
            · exact absurd hl (by simp [isLockedPC])
            · obtain ⟨e2, hc2, hk2⟩ := hlock j t hj2 hl
              rw [hc] at hc2
              injection hc2 with he
              subst he
              rw [hme] at hk2
              injection hk2 with hk3
              exact absurd hk3.symm hij
          · intro j t hj
            rcases getElemSetCases hlt hj with ⟨rfl, rfl⟩ | ⟨hij, hj2⟩
            · rfl
            · exact hnc j t hj2
        · rw [if_neg hexp] at hstep
          injection hstep with hs
          subst hs
          refine ⟨rfl, ?_, ?_⟩
          · intro j t hj hl
            rcases getElemSetCases hlt hj with ⟨rfl, rfl⟩ | ⟨hij, hj2⟩
            · exact ⟨_, rfl, by simpa using hme⟩
            · obtain ⟨e2, hc2, hk2⟩ := hlock j t hj2 hl
              rw [hc] at hc2
              injection hc2 with he
              subst he
              rw [hme] at hk2
              injection hk2 with hk3
              exact absurd hk3.symm hij
          · intro j t hj
            rcases getElemSetCases hlt hj with ⟨rfl, rfl⟩ | ⟨hij, hj2⟩
            · rfl
            · exact hnc j t hj2
    | renewCall =>
      cases hc : s.cache with
      | none => rw [hc] at hsome; exact absurd hsome (by simp)
      | some e =>
        have hme : e.lockHolder = some i := by
          obtain ⟨e2, hc2, hk2⟩ := hlock i ⟨PC.renewCall, dex⟩ hget rfl
          rw [hc] at hc2
          injection hc2 with he
          subst he
          exact hk2
        cases hx : exch s.exchCount with
        | error msg =>
          simp only [stepThread, hget, hc, hx] at hstep
          injection hstep with hs
          subst hs
          refine ⟨rfl, ?_, ?_⟩
          · intro j t hj hl
            rcases getElemSetCases hlt hj with ⟨rfl, rfl⟩ | ⟨hij, hj2⟩
            · exact absurd hl (by simp [isLockedPC])
            · obtain ⟨e2, hc2, hk2⟩ := hlock j t hj2 hl
              rw [hc] at hc2
              injection hc2 with he
              subst he
              rw [hme] at hk2
              injection hk2 with hk3
              exact absurd hk3.symm hij
          · intro j t hj
            rcases getElemSetCases hlt hj with ⟨rfl, rfl⟩ | ⟨hij, hj2⟩
            · rfl
            · exact hnc j t hj2
        | ok tok =>
          simp only [stepThread, hget, hc, hx] at hstep
          injection hstep with hs
          subst hs
          refine ⟨rfl, ?_, ?_⟩
          · intro j t hj hl
            rcases getElemSetCases hlt hj with ⟨rfl, rfl⟩ | ⟨hij, hj2⟩
            · exact absurd hl (by simp [isLockedPC])
            · obtain ⟨e2, hc2, hk2⟩ := hlock j t hj2 hl
              rw [hc] at hc2
              injection hc2 with he
              subst he
              rw [hme] at hk2
              injection hk2 with hk3
              exact absurd hk3.symm hij
          · intro j t hj
            rcases getElemSetCases hlt hj with ⟨rfl, rfl⟩ | ⟨hij, hj2⟩
            · rfl
            · exact hnc j t hj2
    | createCall =>
      have hcreate := hnc i ⟨PC.createCall, dex⟩ hget
      exact absurd hcreate (by simp [isCreatePC])
    | storeNew tok =>
      have hcreate := hnc i ⟨PC.storeNew tok, dex⟩ hget
      exact absurd hcreate (by simp [isCreatePC])
    | done res =>
      simp [stepThread, hget] at hstep

/-- invC1Run: `InvC1` holds along every schedule. -/
theorem invC1Run (now buffer : Int) (exch : Nat → Except String GitHubAppToken)
    (trace : List Nat) (s s' : SysState) (hinv : InvC1 s)
    (hrun : run now buffer exch s trace = some s') : InvC1 s' := by
  induction trace generalizing s with
  | nil =>
    injection hrun with h
    subst h
    exact hinv
  | cons i rest ih =>
    cases hstep : stepThread now buffer exch s i with
    | none => simp [run, hstep] at hrun
    | some s2 =>
      simp only [run, hstep] at hrun
      exact ih s2 (invC1Step now buffer exch s s2 i hinv hstep) hrun

/-- invC1Initial: the invariant holds at every initial state in which the
identity's entry exists with its renewal mutex free. -/
theorem invC1Initial (tok : GitHubAppToken) (createdAt lastUsed : Int)
    (renewing : Bool) (n : Nat) :
    InvC1 (initialRenewState tok createdAt lastUsed renewing n) := by
  refine ⟨rfl, ?_, ?_⟩
  · intro i t ht hl
    have heq := List.eq_of_mem_replicate (List.getElem?_mem ht)
    rw [heq] at hl
    exact absurd hl (by simp [isLockedPC])
  · intro i t ht
    have heq := List.eq_of_mem_replicate (List.getElem?_mem ht)
    rw [heq]
    rfl

/-- C1: starting from a state in which a cache entry exists for the
identity and any number of goroutines call `GetToken` concurrently, every
reachable state has at most one renewal exchange in flight: the entry's
private `renewMutex` totally orders the renewal path, so no two renewal
requests for the identity are ever issued to the platform concurrently. -/
theorem C1_single_flight_renewal (now buffer : Int)
    (exch : Nat → Except String GitHubAppToken) (tok : GitHubAppToken)
    (createdAt lastUsed : Int) (renewing : Bool) (n : Nat)
    (trace : List Nat) (s' : SysState)
    (hrun : run now buffer exch (initialRenewState tok createdAt lastUsed renewing n)
              trace = some s') :
    s'.threads.countP (fun t => isRenewPC t.pc) ≤ 1 := by
  obtain ⟨_, hlock, _⟩ :=
    invC1Run now buffer exch trace _ s' (invC1Initial tok createdAt lastUsed renewing n) hrun
  by_contra hcon
  obtain ⟨i, j, a, b, hij, hi, hj, hpa, hpb⟩ :=
    getTwoOfTwoLeCountP (fun t => isRenewPC t.pc) s'.threads (by omega)
  obtain ⟨e1, hc1, hk1⟩ := hlock i a hi (lockedOfRenew hpa)
  obtain ⟨e2, hc2, hk2⟩ := hlock j b hj (lockedOfRenew hpb)
  rw [hc1] at hc2
  injection hc2 with he
  subst he
  rw [hk1] at hk2
  injection hk2 with hk3
  exact hij hk3

/-- tokExpiredW is a token that expired at instant 0. -/
def tokExpiredW : GitHubAppToken := mkToken "old" 0

/-- exchW always returns a fresh token valid far into the future. -/
def exchW : Nat → Except String GitHubAppToken := fun _ => .ok (mkToken "new" 1000000000)

/-- C1 witness: with two goroutines racing on an entry holding an expired
token, the schedule that drives thread 0 through lookup, lock
acquisition and into its in-flight renewal exchange reaches a state with
exactly one renewal in flight. -/
theorem C1_witness :
    (SysState.mk
      (some { token := tokExpiredW, createdAt := 0, lastUsed := 1000,
              renewing := true, lockHolder := some 0 })
      [{ pc := .renewCall, didExch := false }, { pc := .start, didExch := false }]
      0).threads.countP (fun t => isRenewPC t.pc) ≤ 1 :=
  C1_single_flight_renewal 1000 0 exchW tokExpiredW 0 0 false 2 [0, 0, 0] _ rfl

/-- countPSetAdd relates the predicate count of a list before and after a
single-position update. -/
theorem countPSetAdd (p : Thread → Bool) (l : List Thread) (i : Nat) (a b : Thread)
    (h : l[i]? = some a) :
    (l.set i b).countP p + (if p a then 1 else 0)
      = l.countP p + (if p b then 1 else 0) := by
  induction l generalizing i with
  | nil => simp at h
  | cons x xs ih =>
    cases i with
    | zero =>
      rw [List.getElem?_cons_zero] at h
      injection h with h2
      subst h2
      by_cases h1 : p x = true <;> by_cases h2 : p b = true <;>
        simp [List.countP_cons, h1, h2]
    | succ n =>
      rw [List.getElem?_cons_succ] at h
      have ihn := ih n h
      by_cases h1 : p x = true <;>
        simp [List.countP_cons, h1, List.set] <;> omega

/-- countPSetSame: updating a position with a thread of equal predicate
value keeps the count. -/
theorem countPSetSame (p : Thread → Bool) (l : List Thread) (i : Nat) (a b : Thread)
    (h : l[i]? = some a) (hp : p a = p b) :
    (l.set i b).countP p = l.countP p := by
  have hadd := countPSetAdd p l i a b h
  rw [hp] at hadd
  omega

/-- countPSetIncr: updating a position from a non-satisfying to a
satisfying thread increments the count. -/
theorem countPSetIncr (p : Thread → Bool) (l : List Thread) (i : Nat) (a b : Thread)
    (h : l[i]? = some a) (hpa : p a = false) (hpb : p b = true) :
    (l.set i b).countP p = l.countP p + 1 := by
  have hadd := countPSetAdd p l i a b h
  rw [hpa, hpb] at hadd
  simp at hadd
  omega

/-- InvC2 is the exchange-counting invariant of the cold-start path: the
exchange counter equals the number of threads that have completed an
exchange, a thread that has not yet completed its exchange carries a
clear flag, a thread about to store carries a set flag, and a populated
cache or a finished thread witnesses at least one completed exchange. -/
def InvC2 (s : SysState) : Prop :=
  s.exchCount = s.threads.countP (fun t => t.didExch) ∧
  (∀ (i : Nat) (t : Thread), s.threads[i]? = some t → preExchPC t.pc = true → t.didExch = false) ∧
  (∀ (i : Nat) (t : Thread), s.threads[i]? = some t → isStorePC t.pc = true → t.didExch = true) ∧
  (s.cache.isSome = true → 1 ≤ s.exchCount) ∧
  (∀ (i : Nat) (t : Thread), s.threads[i]? = some t → isDonePC t = true → 1 ≤ s.exchCount)

/-- invC2Step: every atomic step of every thread preserves `InvC2`. -/
theorem invC2Step (now buffer : Int) (exch : Nat → Except String GitHubAppToken)
    (s s' : SysState) (i : Nat) (hinv : InvC2 s)
    (hstep : stepThread now buffer exch s i = some s') : InvC2 s' := by
  obtain ⟨h1, h2, h3, h4, h5⟩ := hinv
  cases hget : s.threads[i]? with
  | none => simp [stepThread, hget] at hstep
  | some th =>
    obtain ⟨pc, dex⟩ := th
    have hlt : i < s.threads.length := getElemLt hget
    cases pc with
    | start =>
      have hdex : dex = false := h2 i ⟨PC.start, dex⟩ hget rfl
      subst hdex
      cases hc : s.cache with
      | none =>
        simp only [stepThread, hget, hc] at hstep
        injection hstep with hs
        subst hs
        dsimp only [InvC2]
        refine ⟨?_, ?_, ?_, ?_, ?_⟩
        · exact h1.trans (countPSetSame (fun t => t.didExch) s.threads i _ _ hget (by rfl)).symm
        · intro j t hj hpre
          rcases getElemSetCases hlt hj with ⟨rfl, rfl⟩ | ⟨hij, hj2⟩
          · rfl
          · exact h2 j t hj2 hpre
        · intro j t hj hst
          rcases getElemSetCases hlt hj with ⟨rfl, rfl⟩ | ⟨hij, hj2⟩
          · exact absurd hst (by simp [isStorePC])
          · exact h3 j t hj2 hst
        · intro hcs
          exact absurd hcs (by simp)
        · intro j t hj hdone
          rcases getElemSetCases hlt hj with ⟨rfl, rfl⟩ | ⟨hij, hj2⟩
          · exact absurd hdone (by simp [isDonePC])
          · exact h5 j t hj2 hdone
      | some e =>
        simp only [stepThread, hget, hc] at hstep
        have hcached : 1 ≤ s.exchCount := h4 (by rw [hc]; rfl)
        by_cases hexp : isTokenExpired now (some e.token) buffer = false
        · rw [if_pos hexp] at hstep
          injection hstep with hs
          subst hs
          dsimp only [InvC2]
          refine ⟨?_, ?_, ?_, ?_, ?_⟩
          · exact h1.trans (countPSetSame (fun t => t.didExch) s.threads i _ _ hget (by rfl)).symm
          · intro j t hj hpre
            rcases getElemSetCases hlt hj with ⟨rfl, rfl⟩ | ⟨hij, hj2⟩
            · exact absurd hpre (by simp [preExchPC])
            · exact h2 j t hj2 hpre
          · intro j t hj hst
            rcases getElemSetCases hlt hj with ⟨rfl, rfl⟩ | ⟨hij, hj2⟩
            · exact absurd hst (by simp [isStorePC])
            · exact h3 j t hj2 hst
          · intro _
            exact hcached
          · intro j t hj hdone
            exact hcached
        · rw [if_neg hexp] at hstep
          injection hstep with hs
          subst hs
          dsimp only [InvC2]
          refine ⟨?_, ?_, ?_, ?_, ?_⟩
          · exact h1.trans (countPSetSame (fun t => t.didExch) s.threads i _ _ hget (by rfl)).symm
          · intro j t hj hpre
            rcases getElemSetCases hlt hj with ⟨rfl, rfl⟩ | ⟨hij, hj2⟩
            · rfl
            · exact h2 j t hj2 hpre
          · intro j t hj hst
            rcases getElemSetCases hlt hj with ⟨rfl, rfl⟩ | ⟨hij, hj2⟩
            · exact absurd hst (by simp [isStorePC])
            · exact h3 j t hj2 hst
          · intro _
            exact hcached
          · intro j t hj hdone
            exact hcached
    | lockWait =>
      have hdex : dex = false := h2 i ⟨PC.lockWait, dex⟩ hget rfl
      subst hdex
      cases hc : s.cache with
      | none => simp [stepThread, hget, hc] at hstep
      | some e =>
        have hcached : 1 ≤ s.exchCount := h4 (by rw [hc]; rfl)
        cases hk : e.lockHolder with
        | some holder => simp [stepThread, hget, hc, hk] at hstep
        | none =>
          simp only [stepThread, hget, hc, hk] at hstep
          injection hstep with hs
          subst hs
          dsimp only [InvC2]
          refine ⟨?_, ?_, ?_, ?_, ?_⟩
          · exact h1.trans (countPSetSame (fun t => t.didExch) s.threads i _ _ hget (by rfl)).symm
          · intro j t hj hpre
            rcases getElemSetCases hlt hj with ⟨rfl, rfl⟩ | ⟨hij, hj2⟩
            · rfl
            · exact h2 j t hj2 hpre
          · intro j t hj hst
            rcases getElemSetCases hlt hj with ⟨rfl, rfl⟩ | ⟨hij, hj2⟩
            · exact absurd hst (by simp [isStorePC])
            · exact h3 j t hj2 hst
          · intro _
            exact hcached
          · intro j t hj hdone
            exact hcached
    | locked =>
      have hdex : dex = false := h2 i ⟨PC.locked, dex⟩ hget rfl
      subst hdex
      cases hc : s.cache with
      | none => simp [stepThread, hget, hc] at hstep
      | some e =>
        have hcached : 1 ≤ s.exchCount := h4 (by rw [hc]; rfl)
        simp only [stepThread, hget, hc] at hstep
        by_cases hexp : isTokenExpired now (some e.token) buffer = false
        · rw [if_pos hexp] at hstep
          injection hstep with hs
          subst hs
          dsimp only [InvC2]
          refine ⟨?_, ?_, ?_, ?_, ?_⟩
          · exact h1.trans (countPSetSame (fun t => t.didExch) s.threads i _ _ hget (by rfl)).symm
          · intro j t hj hpre
            rcases getElemSetCases hlt hj with ⟨rfl, rfl⟩ | ⟨hij, hj2⟩
            · exact absurd hpre (by simp [preExchPC])
            · exact h2 j t hj2 hpre
          · intro j t hj hst
            rcases getElemSetCases hlt hj with ⟨rfl, rfl⟩ | ⟨hij, hj2⟩
            · exact absurd hst (by simp [isStorePC])
            · exact h3 j t hj2 hst
          · intro _
            exact hcached
          · intro j t hj hdone
            exact hcached
        · rw [if_neg hexp] at hstep
          injection hstep with hs
          subst hs
          dsimp only [InvC2]
          refine ⟨?_, ?_, ?_, ?_, ?_⟩
          · exact h1.trans (countPSetSame (fun t => t.didExch) s.threads i _ _ hget (by rfl)).symm
          · intro j t hj hpre
            rcases getElemSetCases hlt hj with ⟨rfl, rfl⟩ | ⟨hij, hj2⟩
            · rfl
            · exact h2 j t hj2 hpre
          · intro j t hj hst
            rcases getElemSetCases hlt hj with ⟨rfl, rfl⟩ | ⟨hij, hj2⟩
            · exact absurd hst (by simp [isStorePC])
            · exact h3 j t hj2 hst
          · intro _
            exact hcached
          · intro j t hj hdone
            exact hcached
    | renewCall =>
      have hdex : dex = false := h2 i ⟨PC.renewCall, dex⟩ hget rfl
      subst hdex
      cases hc : s.cache with
      | none => simp [stepThread, hget, hc] at hstep
      | some e =>
        cases hx : exch s.exchCount with
        | error msg =>
          simp only [stepThread, hget, hc, hx] at hstep
          injection hstep with hs
          subst hs
          dsimp only [InvC2]
          refine ⟨?_, ?_, ?_, ?_, ?_⟩
          · rw [h1]
            exact (countPSetIncr (fun t => t.didExch) s.threads i _ _ hget (by rfl) (by rfl)).symm
          · intro j t hj hpre
            rcases getElemSetCases hlt hj with ⟨rfl, rfl⟩ | ⟨hij, hj2⟩
            · exact absurd hpre (by simp [preExchPC])
            · exact h2 j t hj2 hpre
          · intro j t hj hst
            rcases getElemSetCases hlt hj with ⟨rfl, rfl⟩ | ⟨hij, hj2⟩
            · exact absurd hst (by simp [isStorePC])
            · exact h3 j t hj2 hst
          · intro _
            omega
          · intro j t hj hdone
            omega
        | ok tok =>
          simp only [stepThread, hget, hc, hx] at hstep
          injection hstep with hs
          subst hs
          dsimp only [InvC2]
          refine ⟨?_, ?_, ?_, ?_, ?_⟩
          · rw [h1]
            exact (countPSetIncr (fun t => t.didExch) s.threads i _ _ hget (by rfl) (by rfl)).symm
          · intro j t hj hpre
            rcases getElemSetCases hlt hj with ⟨rfl, rfl⟩ | ⟨hij, hj2⟩
            · exact absurd hpre (by simp [preExchPC])
            · exact h2 j t hj2 hpre
          · intro j t hj hst
            rcases getElemSetCases hlt hj with ⟨rfl, rfl⟩ | ⟨hij, hj2⟩
            · exact absurd hst (by simp [isStorePC])
            · exact h3 j t hj2 hst
          · intro _
            omega
          · intro j t hj hdone
            omega
    | createCall =>
      have hdex : dex = false := h2 i ⟨PC.createCall, dex⟩ hget rfl
      subst hdex
      cases hx : exch s.exchCount with
      | error msg =>
        simp only [stepThread, hget, hx] at hstep
        injection hstep with hs
        subst hs
        dsimp only [InvC2]
        refine ⟨?_, ?_, ?_, ?_, ?_⟩
        · rw [h1]
          exact (countPSetIncr (fun t => t.didExch) s.threads i _ _ hget (by rfl) (by rfl)).symm
        · intro j t hj hpre
          rcases getElemSetCases hlt hj with ⟨rfl, rfl⟩ | ⟨hij, hj2⟩
          · exact absurd hpre (by simp [preExchPC])
          · exact h2 j t hj2 hpre
        · intro j t hj hst
          rcases getElemSetCases hlt hj with ⟨rfl, rfl⟩ | ⟨hij, hj2⟩
          · exact absurd hst (by simp [isStorePC])
          · exact h3 j t hj2 hst
        · intro _
          omega
        · intro j t hj hdone
          omega
      | ok tok =>
        simp only [stepThread, hget, hx] at hstep
        injection hstep with hs
        subst hs
        dsimp only [InvC2]
        refine ⟨?_, ?_, ?_, ?_, ?_⟩
        · rw [h1]
          exact (countPSetIncr (fun t => t.didExch) s.threads i _ _ hget (by rfl) (by rfl)).symm
        · intro j t hj hpre
          rcases getElemSetCases hlt hj with ⟨rfl, rfl⟩ | ⟨hij, hj2⟩
          · exact absurd hpre (by simp [preExchPC])
          · exact h2 j t hj2 hpre
        · intro j t hj hst
          rcases getElemSetCases hlt hj with ⟨rfl, rfl⟩ | ⟨hij, hj2⟩
          · rfl
          · exact h3 j t hj2 hst
        · intro _
          omega
        · intro j t hj hdone
          omega
    | storeNew tok =>
      have hdex : dex = true := h3 i ⟨PC.storeNew tok, dex⟩ hget rfl
      subst hdex
      have hpos : 1 ≤ s.exchCount := by
        rw [h1]
        exact List.countP_pos_iff.mpr ⟨_, List.getElem?_mem hget, rfl⟩
      simp only [stepThread, hget] at hstep
      injection hstep with hs
      subst hs
      dsimp only [InvC2]
      refine ⟨?_, ?_, ?_, ?_, ?_⟩
      · exact h1.trans (countPSetSame (fun t => t.didExch) s.threads i _ _ hget (by rfl)).symm
      · intro j t hj hpre
        rcases getElemSetCases hlt hj with ⟨rfl, rfl⟩ | ⟨hij, hj2⟩
        · exact absurd hpre (by simp [preExchPC])
        · exact h2 j t hj2 hpre
      · intro j t hj hst
        rcases getElemSetCases hlt hj with ⟨rfl, rfl⟩ | ⟨hij, hj2⟩
        · exact absurd hst (by simp [isStorePC])
        · exact h3 j t hj2 hst
      · intro _
        exact hpos
      · intro j t hj hdone
        exact hpos
    | done res =>
      simp [stepThread, hget] at hstep

/-- invC2Run: `InvC2` holds along every schedule. -/
theorem invC2Run (now buffer : Int) (exch : Nat → Except String GitHubAppToken)
    (trace : List Nat) (s s' : SysState) (hinv : InvC2 s)
    (hrun : run now buffer exch s trace = some s') : InvC2 s' := by
  induction trace generalizing s with
  | nil =>
    injection hrun with h
    subst h
    exact hinv
  | cons i rest ih =>
    cases hstep : stepThread now buffer exch s i with
    | none => simp [run, hstep] at hrun
    | some s2 =>
      simp only [run, hstep] at hrun
      exact ih s2 (invC2Step now buffer exch s s2 i hinv hstep) hrun

/-- invC2Initial: the invariant holds when no entry is cached and every
goroutine is about to start. -/
theorem invC2Initial (n : Nat) : InvC2 (initialEmptyState n) := by
  refine ⟨?_, ?_, ?_, ?_, ?_⟩
  · have hz : List.countP (fun t : Thread => t.didExch)
        (List.replicate n { pc := PC.start, didExch := false }) = 0 := by
      rw [List.countP_eq_zero]
      intro t ht
      rw [List.eq_of_mem_replicate ht]
      simp
    exact hz.symm
  · intro i t ht _
    rw [List.eq_of_mem_replicate (List.getElem?_mem ht)]
  · intro i t ht hst
    rw [List.eq_of_mem_replicate (List.getElem?_mem ht)] at hst
    exact absurd hst (by simp [isStorePC])
  · intro hcs
    exact absurd hcs (by simp [initialEmptyState])
  · intro i t ht hdone
    rw [List.eq_of_mem_replicate (List.getElem?_mem ht)] at hdone
    exact absurd hdone (by simp [isDonePC])

/-- stepLength: a step never changes the number of goroutines. -/
theorem stepLength (now buffer : Int) (exch : Nat → Except String GitHubAppToken)
    (s s' : SysState) (i : Nat)
    (hstep : stepThread now buffer exch s i = some s') :
    s'.threads.length = s.threads.length := by
  cases hget : s.threads[i]? with
  | none => simp [stepThread, hget] at hstep
  | some th =>
    obtain ⟨pc, dex⟩ := th
    cases pc with
    | start =>
      cases hc : s.cache with
      | none =>
        simp only [stepThread, hget, hc] at hstep
        injection hstep with hs; subst hs; simp
      | some e =>
        simp only [stepThread, hget, hc] at hstep
        by_cases hexp : isTokenExpired now (some e.token) buffer = false
        · rw [if_pos hexp] at hstep; injection hstep with hs; subst hs; simp
        · rw [if_neg hexp] at hstep; injection hstep with hs; subst hs; simp
    | lockWait =>
      cases hc : s.cache with
      | none => simp [stepThread, hget, hc] at hstep
      | some e =>
        cases hk : e.lockHolder with
        | some holder => simp [stepThread, hget, hc, hk] at hstep
        | none =>
          simp only [stepThread, hget, hc, hk] at hstep
          injection hstep with hs; subst hs; simp
    | locked =>
      cases hc : s.cache with
      | none => simp [stepThread, hget, hc] at hstep
      | some e =>
        simp only [stepThread, hget, hc] at hstep
        by_cases hexp : isTokenExpired now (some e.token) buffer = false
        · rw [if_pos hexp] at hstep; injection hstep with hs; subst hs; simp
        · rw [if_neg hexp] at hstep; injection hstep with hs; subst hs; simp
    | renewCall =>
      cases hc : s.cache with
      | none => simp [stepThread, hget, hc] at hstep
      | some e =>
        cases hx : exch s.exchCount with
        | error msg =>
          simp only [stepThread, hget, hc, hx] at hstep
          injection hstep with hs; subst hs; simp
        | ok tok =>
          simp only [stepThread, hget, hc, hx] at hstep
          injection hstep with hs; subst hs; simp
    | createCall =>
      cases hx : exch s.exchCount with
      | error msg =>
        simp only [stepThread, hget, hx] at hstep
        injection hstep with hs; subst hs; simp
      | ok tok =>
        simp only [stepThread, hget, hx] at hstep
        injection hstep with hs; subst hs; simp
    | storeNew tok =>
      simp only [stepThread, hget] at hstep
      injection hstep with hs; subst hs; simp
    | done res =>
      simp [stepThread, hget] at hstep

/-- runLength: the number of goroutines is constant along a schedule. -/
theorem runLength (now buffer : Int) (exch : Nat → Except String GitHubAppToken)
    (trace : List Nat) (s s' : SysState)
    (hrun : run now buffer exch s trace = some s') :
    s'.threads.length = s.threads.length := by
  induction trace generalizing s with
  | nil =>
    injection hrun with h
    subst h
    rfl
  | cons i rest ih =>
    cases hstep : stepThread now buffer exch s i with
    | none => simp [run, hstep] at hrun
    | some s2 =>
      simp only [run, hstep] at hrun
      rw [ih s2 hrun, stepLength now buffer exch s s2 i hstep]


/-- C2 (amended): given N ≥ 1 concurrent `GetToken()` calls on an identity
with no cached entry, between 1 and N exchange calls reach the Token
Exchange Client — the cold-start path is not single-flight, so each
caller may perform its own exchange (and callers may then receive
different token values, as the counterexample shows). -/
theorem C2_cold_start_exchange_bounds (now buffer : Int)
    (exch : Nat → Except String GitHubAppToken) (n : Nat) (trace : List Nat)
    (s' : SysState) (hn : 1 ≤ n)
    (hrun : run now buffer exch (initialEmptyState n) trace = some s')
    (hdone : s'.threads.all isDonePC = true) :
    1 ≤ s'.exchCount ∧ s'.exchCount ≤ n := by
  obtain ⟨h1, h2, h3, h4, h5⟩ := invC2Run now buffer exch trace _ s' (invC2Initial n) hrun
  have hlen : s'.threads.length = n := by
    rw [runLength now buffer exch trace _ s' hrun]
    simp [initialEmptyState]
  constructor
  · cases ht0 : s'.threads[0]? with
    | none =>
      rw [List.getElem?_eq_none_iff] at ht0
      omega
    | some t =>
      have hmem := List.getElem?_mem ht0
      have hd : isDonePC t = true := by
        rw [List.all_eq_true] at hdone
        exact hdone t hmem
      exact h5 0 t ht0 hd
  · rw [h1, ← hlen]
    exact List.countP_le_length _

/-- exchCE returns a token named after the exchange call index, so
distinct exchanges yield distinct token values. -/
def exchCE : Nat → Except String GitHubAppToken := fun k =>
  .ok (if k = 0 then mkToken "tokA" 1000000000 else mkToken "tokB" 1000000000)

/-- C2 counterexample: from an empty cache, the schedule in which both
goroutines pass the cache lookup before either stores drives both into
`createNewToken`: two exchange calls reach the Token Exchange Client and
the two callers receive different token values, refuting both the
exactly-one-exchange and the same-token parts of the claim. -/
theorem C2_counterexample :
    ∃ s', run 0 300 exchCE (initialEmptyState 2) [0, 1, 0, 1, 0, 1] = some s' ∧
      s'.threads.all isDonePC = true ∧
      s'.exchCount = 2 ∧
      s'.threads[0]? = some { pc := PC.done (.ok (some (mkToken "tokA" 1000000000))),
                              didExch := true } ∧
      s'.threads[1]? = some { pc := PC.done (.ok (some (mkToken "tokB" 1000000000))),
                              didExch := true } ∧
      mkToken "tokA" 1000000000 ≠ mkToken "tokB" 1000000000 := by
  refine ⟨_, rfl, ?_, ?_, ?_, ?_, ?_⟩ <;> decide

/-- C2 witness: a single caller on an empty cache performs exactly one
exchange, meeting both bounds of the amended claim. -/
theorem C2_witness :
    1 ≤ (SysState.mk
          (some { token := mkToken "tokA" 1000000000, createdAt := 0, lastUsed := 0,
                  renewing := false, lockHolder := none })
          [{ pc := PC.done (.ok (some (mkToken "tokA" 1000000000))), didExch := true }]
          1).exchCount ∧
    (SysState.mk
          (some { token := mkToken "tokA" 1000000000, createdAt := 0, lastUsed := 0,
                  renewing := false, lockHolder := none })
          [{ pc := PC.done (.ok (some (mkToken "tokA" 1000000000))), didExch := true }]
          1).exchCount ≤ 1 :=
  C2_cold_start_exchange_bounds 0 300 exchCE 1 [0, 0, 0] _ (by norm_num) rfl (by decide)

end GHAppAuth
